import Mathlib

/-!
Shallow embedding of `src/oedabby.py` (Python 2), the layout-reconstruction
core for scanned OED pages: `BoundingBox`, `findcolumns`, `mergeblocks` and
`postprocess`.

Modelling conventions:
* Python 2 machine integers are unbounded, so coordinates are `Int`.
* Python 2 `/` on ints is floor division; for the positive divisor `2` used by
  the source this coincides with Lean's `Int` division `/` (Euclidean), which
  we therefore use directly (`(-7 : Int) / 2 = -4`, as in Python).
* A raised Python exception is modelled as `Except.error` carrying the
  exception text; normal completion is `Except.ok`.
* Output printed with `print` is modelled as a `List String` of log lines
  returned next to the result.  A raised exception discards the lines printed
  before it (they went to the console, not to the result), so an erroring run
  is modelled as a bare `Except.error`.
* The bounding box stored in a node's `title` attribute (`"bbox l t r b"`) is
  kept in parsed form; `extendblock` re-serialising the box into the title is
  modelled by updating the parsed field.  The serialisation itself appears in
  the log strings through `pystr` / `pyrepr` (`__str__` / `__repr__`).
* `DEBUG` is the module constant `False` (`oedabby.py:53`), so every
  `if DEBUG:` block, including the two `assert False` statements
  (lines 277, 402) and all matplotlib display code, is dead and omitted.
-/

namespace Oed

/-- `BoundingBox` (oedabby.py:67-77): four page-pixel coordinates, origin at
the top left.  The Python constructor takes one sequence argument `bbox` and
reads `bbox[0] .. bbox[3]`. -/
structure BoundingBox where
  left : Int
  top : Int
  right : Int
  bottom : Int
deriving DecidableEq

/-- `width` (line 106-107): `right - left`. -/
def BoundingBox.width (b : BoundingBox) : Int := b.right - b.left

/-- `height` (line 108-109): `bottom - top`. -/
def BoundingBox.height (b : BoundingBox) : Int := b.bottom - b.top

/-- `centerx` (line 110-111): `left + width()/2`.  Python 2 `/` on ints is
floor division; the divisor is the positive constant `2`, where Lean's `Int`
division agrees with it. -/
def BoundingBox.centerx (b : BoundingBox) : Int := b.left + b.width / 2

/-- `__str__` (line 139-140): `"bbox %d %d %d %d"`. -/
def BoundingBox.pystr (b : BoundingBox) : String :=
  "bbox " ++ toString b.left ++ " " ++ toString b.top ++ " "
    ++ toString b.right ++ " " ++ toString b.bottom

/-- `__repr__` (line 142-143): `"%s %d %d" % (str(self), width, height)`. -/
def BoundingBox.pyrepr (b : BoundingBox) : String :=
  b.pystr ++ " " ++ toString b.width ++ " " ++ toString b.height

/-- `contains` (lines 91-96).  Its body is
`b2.left >= left and b2.top >= top and b2.bottom <= bottom and b2.right <= b1.right`:
the bare names `left`, `top`, `bottom` and `b1` are not in scope anywhere
(they are neither locals, nor globals, and Python does not resolve bare names
against class attributes inside a method), so the very first comparison raises
`NameError` on every call.  The docstring states the intent: "Returns True if
b2 is contained by b1". -/
def BoundingBox.contains (_b1 _b2 : BoundingBox) : Except String Bool :=
  .error ("NameError: global name left is not defined")

/-- `union` (lines 113-115).  Its body evaluates the four min/max coordinates
and then calls `BoundingBox(min .., min .., max .., max ..)` — four positional
arguments to the one-argument constructor `__init__(self, bbox)`
(line 73) — so every call raises `TypeError` before a box is built. -/
def BoundingBox.union (_b1 _b2 : BoundingBox) : Except String BoundingBox :=
  .error ("TypeError: __init__() takes exactly 2 arguments (5 given)")

/-- Modelled from the spec (section 4.1, also the docstring of `contains`):
`other` lies entirely within `self` on all four edges.  This is the intended
semantics of `contains`, which the source never reaches (see
`BoundingBox.contains`). -/
def BoundingBox.containsSpec (b1 b2 : BoundingBox) : Bool :=
  decide (b2.left ≥ b1.left) && decide (b2.top ≥ b1.top)
    && decide (b2.bottom ≤ b1.bottom) && decide (b2.right ≤ b1.right)

/-- Modelled from the spec (section 4.1): the coordinate-wise min/max box,
the value the source's `union` tries and fails to construct. -/
def BoundingBox.unionSpec (b1 b2 : BoundingBox) : BoundingBox :=
  ⟨min b1.left b2.left, min b1.top b2.top,
   max b1.right b2.right, max b1.bottom b2.bottom⟩

/-- `intersects` (lines 98-104):
`not (self.left >= b2.right or b2.left >= self.right or self.top >= b2.bottom or b2.top >= self.bottom)`. -/
def BoundingBox.intersects (b1 b2 : BoundingBox) : Bool :=
  !(decide (b1.left ≥ b2.right) || decide (b2.left ≥ b1.right)
    || decide (b1.top ≥ b2.bottom) || decide (b2.top ≥ b1.bottom))

/-- Modelled from the spec (the claim's words): the two closed boxes share at
least one point (a shared edge or corner counts). -/
def BoundingBox.sharesPointOrEdge (a b : BoundingBox) : Prop :=
  ∃ x y : Int,
    a.left ≤ x ∧ x ≤ a.right ∧ a.top ≤ y ∧ y ≤ a.bottom ∧
    b.left ≤ x ∧ x ≤ b.right ∧ b.top ≤ y ∧ y ≤ b.bottom

/-- `maximize` (lines 117-124): in-place union; modelled functionally, the
caller rebinds the box. -/
def BoundingBox.maximize (b1 b2 : BoundingBox) : BoundingBox :=
  ⟨min b1.left b2.left, min b1.top b2.top,
   max b1.right b2.right, max b1.bottom b2.bottom⟩

/-- The loop of `column` (lines 134-137):
`for i in range(1, len(cols)): if self.left < cols[i] - 10: return i-1`,
falling through to `return len(cols)-1`.  Here the list argument is
`cols[1:]`, `i` is the Python `i - 1` (so it starts at 0), and `fallback` is
`len(cols) - 1`. -/
def columnloop (left fallback : Int) : List Int → Int → Int
  | [], _ => fallback
  | c :: cs, i => if left < c - 10 then i else columnloop left fallback cs (i + 1)

/-- `column` (lines 126-137): the column index of the box given the list of
column left margins.  The source indexes `cols[0]`, so the list is passed as
head `c0` and tail `rest` (every caller passes the 3-tuple returned by
`findcolumns`, so it is never empty). -/
def BoundingBox.column (b : BoundingBox) (c0 : Int) (rest : List Int) : Int :=
  if b.right < c0 then -1
  else columnloop b.left (rest.length : Int) rest 0

/-- A recognised text line (hOCR `span.ocr_line`): its `title` bounding box
`"bbox left top right bottom"` kept parsed, plus its text content. -/
structure Line where
  left : Int
  top : Int
  right : Int
  bottom : Int
  text : String
deriving DecidableEq

/-- A paragraph: an immediate child element of a text block; `extendblock`
moves these wholesale via `block2.findall("*")`. -/
structure Para where
  lines : List Line
deriving DecidableEq

/-- A text block (hOCR `div.ocr_carea`): its `title` bounding box kept parsed
(`bound_box`, lines 146-149), plus its child paragraphs. -/
structure Block where
  bbox : BoundingBox
  children : List Para
deriving DecidableEq

/-- Number of `Line` descendants of a block. -/
def Block.lineCount (b : Block) : Nat :=
  (b.children.map (fun p => p.lines.length)).sum

/-- One page's hOCR tree: the list of `ocr_carea` blocks in document order. -/
structure Page where
  blocks : List Block
deriving DecidableEq

/-- All `ocr_line` spans of the page in document order
(`dom.findall(".//span[@class='ocr_line']")`, line 304). -/
def Page.lines (p : Page) : List Line :=
  p.blocks.flatMap (fun b => b.children.flatMap Para.lines)

/-- The 3-tuple `(col1, col2, col3)` of column left boundaries returned by
`findcolumns` and passed to `mergeblocks`. -/
structure Columns where
  col1 : Int
  col2 : Int
  col3 : Int
deriving DecidableEq

/-- `extendblock` (lines 152-165): append `block2`'s child elements to
`block1` (`block1.extend(block2.findall("*"))`), grow `block1`'s box over
`block2`'s (`bb1.maximize(bb2)`; the new box is re-serialised into the title)
and detach `block2` (`removeblock(block2)` — modelled by `block2` not
appearing in the result). -/
def extendblock (block1 block2 : Block) : Block :=
  { bbox := block1.bbox.maximize block2.bbox,
    children := block1.children ++ block2.children }

/-- `sorted(col, key=lambda b: BoundingBox(bound_box(b)).top)` (line 239).
Python's `sorted` is the stable sort by the key; any stable sort by the same
key computes the identical list, so it is modelled by insertion sort. -/
def sortByTop (l : List Block) : List Block :=
  l.insertionSort (fun a b => a.bbox.top ≤ b.bbox.top)

/-- The walk of one column's sorted blocks (lines 237-264).  State:
`lastcenter` starts at `-2000` with `lastblock = None`; a block whose
`centerx` is within 450 of `lastcenter` is merged into `lastblock` by
`extendblock` (note the source does NOT update `lastcenter` on a merge);
otherwise the block becomes the new `lastblock` and its center the new
`lastcenter`.  `acc` collects finished blocks in order.  If the proximity
test fires while `lastblock` is still `None` (a center within 450 of
`-2000`), the source calls `extendblock(None, block)` and raises
`AttributeError` at `block1.extend`. -/
def mergewalk (acc : List Block) (lastcenter : Int) (lastblock : Option Block) :
    List Block → Except String (List Block)
  | [] => .ok (acc ++ lastblock.toList)
  | b :: bs =>
    if (lastcenter - b.bbox.centerx).natAbs < 450 then
      match lastblock with
      | none => .error ("AttributeError: NoneType object has no attribute extend")
      | some c => mergewalk acc lastcenter (some (extendblock c b)) bs
    else
      mergewalk (acc ++ lastblock.toList) b.bbox.centerx (some b) bs

/-- One column of the merge loop (lines 234-264): a single-block column is
skipped (`if len(col) == 1: continue`), otherwise the sorted walk runs. -/
def mergecolumn (col : List Block) : Except String (List Block) :=
  if col.length = 1 then .ok col
  else mergewalk [] (-2000) none (sortByTop col)

/-- `for col in cols:` (line 234) over the three column groups; the surviving
blocks keep their per-column document order. -/
def mergecols : List (List Block) → Except String (List Block)
  | [] => .ok []
  | c :: cs => do
      let m ← mergecolumn c
      let rest ← mergecols cs
      .ok (m ++ rest)

/-- `cols[col].append(block)` (line 205): append in the `col`-th group,
`none` when the index is out of range (Python `IndexError`). -/
def appendAt : List (List Block) → Nat → Block → Option (List (List Block))
  | [], _, _ => none
  | g :: gs, 0, b => some ((g ++ [b]) :: gs)
  | g :: gs, i + 1, b => (appendAt gs i b).map (fun gs2 => g :: gs2)

/-- State of the classification loop of `mergeblocks` (lines 185-207):
the three column groups `cols`, the `Removed` log lines, the list `bboxes`
of every block's box in input order, and the accumulating page box
`page_bb`. -/
structure CState where
  cols : List (List Block)
  removedLog : List String
  bboxes : List BoundingBox
  page_bb : BoundingBox
deriving DecidableEq

/-- Initial state: `cols = [[] for i in range(3)]` (line 185) and
`page_bb = BoundingBox([1500, 1500, 1500, 1500])` (line 186). -/
def initCState : CState :=
  { cols := [[], [], []], removedLog := [], bboxes := [],
    page_bb := ⟨1500, 1500, 1500, 1500⟩ }

/-- One iteration of the classification loop (lines 193-207): record the
block's box, grow `page_bb`, classify by `column`; a negative column removes
the block and prints `'Removed ', repr(bbox)` (Python 2 `print` with a
trailing-space literal and a comma yields two spaces), otherwise the block is
appended to `cols[col]` (an out-of-range index would raise `IndexError`). -/
def classifyStep (columns : Columns) (s : CState) (block : Block) :
    Except String CState :=
  let bbox := block.bbox
  let s2 : CState :=
    { s with bboxes := s.bboxes ++ [bbox], page_bb := s.page_bb.maximize bbox }
  let col := bbox.column columns.col1 [columns.col2, columns.col3]
  if col < 0 then
    .ok { s2 with removedLog := s2.removedLog ++ ["Removed  " ++ bbox.pyrepr] }
  else
    match appendAt s2.cols col.toNat block with
    | some cols2 => .ok { s2 with cols := cols2 }
    | none => .error ("IndexError: list index out of range")

/-- `mergeblocks` (lines 178-277).  With at most 3 blocks it returns at once
(line 190-191) without touching the tree.  Otherwise: classify every block
(lines 193-207), merge each column group (lines 234-264), then print
`"Page: %s" % repr(page_bb)` (line 268), re-query the surviving block list
and, when its length differs from 3, print the mismatch line followed by
`str(bbox)` of every ORIGINAL block box (lines 272-275 print the `bboxes`
list collected before merging, not the survivors).  `DEBUG` is `False`, so
the `assert False` on line 277 is dead and the anomaly is non-fatal. -/
def mergeblocks (dom : Page) (columns : Columns) :
    Except String (Page × List String) :=
  if dom.blocks.length ≤ 3 then .ok (dom, [])
  else do
    let s ← dom.blocks.foldlM (classifyStep columns) initCState
    let final ← mergecols s.cols
    let log := s.removedLog
      ++ ["Page: " ++ s.page_bb.pyrepr]
      ++ (if final.length ≠ 3 then
            ("  * wrong # blocks on this page: " ++ toString final.length)
              :: s.bboxes.map BoundingBox.pystr
          else [])
    .ok ({ blocks := final }, log)

/-- `findcolumns` (lines 291-412).  With fewer than 30 `ocr_line` spans it
returns `None` at once (lines 304-306), printing nothing.  Otherwise it
builds the left/right-edge histograms and prints the average width
(lines 307-320) — and then every continuation raises `NameError`, because
the module never defines `COLMARGIN`: the descending scan for `col3` either
finds a `> 200` gap and evaluates `col3 = last - COLMARGIN` (line 329), or
falls through to `if col1 > COLMARGIN` (line 336), which always executes.
Either way the first lookup of the undefined global raises, the printed line
is lost to the console, and the exception escapes.  (`COLMARGIN` is used on
lines 329, 336, 337 and 353 and assigned nowhere in the module.) -/
def findcolumns (dom : Page) : Except String (Option Columns × List String) :=
  let lines := dom.lines
  if lines.length < 30 then .ok (none, [])
  else
    .error ("NameError: global name COLMARGIN is not defined")

/-- `postprocess` (lines 414-435): run `findcolumns`; a truthy result (a
3-tuple is always truthy) prints `"Columns: "` and runs `mergeblocks`, a
`None` result skips both and the input tree is returned unchanged. -/
def postprocess (dom : Page) : Except String (Page × List String) := do
  let r ← findcolumns dom
  match r with
  | (some cols, log) => do
      let (dom2, log2) ← mergeblocks dom cols
      .ok (dom2, log ++ ["Columns:  (" ++ toString cols.col1 ++ ", "
            ++ toString cols.col2 ++ ", " ++ toString cols.col3 ++ ")"] ++ log2)
  | (none, log) => .ok (dom, log)

/-- Sum of the sizes of the three column groups of a classification state. -/
def groupsize (s : CState) : Nat := (s.cols.map List.length).sum

/-- A line with the given box (the text content is irrelevant to geometry). -/
def exLine (l t r b : Int) : Line := ⟨l, t, r, b, "w"⟩

/-- A one-paragraph block with `n` identical lines, carrying the given box. -/
def exBlock (l t r b : Int) (n : Nat) : Block :=
  ⟨⟨l, t, r, b⟩, [⟨List.replicate n (exLine l t r (t + 10))⟩]⟩

/-- A page holding a single block of 30 identical lines: past the 30-line
gate of `findcolumns`. -/
def page30 : Page := ⟨[exBlock 100 0 800 310 30]⟩

/-- A page holding a single block of 10 lines: under the 30-line gate. -/
def page10 : Page := ⟨[exBlock 100 0 800 110 10]⟩

/-- Column boundaries used by the concrete examples. -/
def cols3 : Columns := ⟨100, 1000, 2000⟩

/-- Three well-separated blocks, one per column of `cols3`. -/
def page3 : Page :=
  ⟨[exBlock 150 0 700 100 1, exBlock 1010 0 1600 100 1, exBlock 2010 0 2600 100 1]⟩

/-- A block entirely in the left margin of `cols3`: right edge 50 < 100. -/
def marginBlock : Block := ⟨⟨10, 0, 50, 50⟩, []⟩

/-- `page3` plus `marginBlock` in front: four blocks, so `mergeblocks` does
not take its early return. -/
def page4 : Page := ⟨marginBlock :: page3.blocks⟩

/-- First of three same-column, vertically stacked, center-aligned blocks. -/
def blkA : Block := exBlock 100 0 500 100 2

/-- Second stacked block, same horizontal center as `blkA`. -/
def blkB : Block := exBlock 100 100 500 200 1

/-- Third stacked block, same horizontal center as `blkA`. -/
def blkC : Block := exBlock 100 200 500 300 3

/-- Four vertically stacked blocks of one column (equal centers), which the
merge pass collapses into a single block: the post-merge count is 1. -/
def page9 : Page :=
  ⟨[exBlock 100 0 500 50 1, exBlock 100 100 500 150 1,
    exBlock 100 200 500 250 1, exBlock 100 300 500 350 1]⟩

/-- The diagnostic output `mergeblocks` produces on `page4` with `cols3`. -/
def log4 : List String :=
  ["Removed  bbox 10 0 50 50 40 50", "Page: bbox 10 0 2600 1500 2590 1500"]

/-- The single block the merge pass leaves on `page9`: the four stacked
blocks collapsed, box `(100, 0, 500, 350)`, children concatenated. -/
def merged9 : Block :=
  ⟨⟨100, 0, 500, 350⟩,
   [⟨[exLine 100 0 500 10]⟩, ⟨[exLine 100 100 500 110]⟩,
    ⟨[exLine 100 200 500 210]⟩, ⟨[exLine 100 300 500 310]⟩]⟩

/-- The diagnostic output `mergeblocks` produces on `page9` with `cols3`. -/
def log9 : List String :=
  ["Page: bbox 100 0 1500 1500 1400 1500",
   "  * wrong # blocks on this page: 1",
   "bbox 100 0 500 50", "bbox 100 100 500 150",
   "bbox 100 200 500 250", "bbox 100 300 500 350"]

end Oed

namespace Oed

/-- Closed form of `column` over a 3-element boundary list. -/
lemma column_unfold (b : BoundingBox) (c0 c1 c2 : Int) :
    b.column c0 [c1, c2] =
      if b.right < c0 then -1
      else if b.left < c1 - 10 then 0
      else if b.left < c2 - 10 then 1 else 2 := by
  simp [BoundingBox.column, columnloop]

/-- The intended `union` (the coordinate-wise min/max box the source tries to
build) does contain both arguments under the intended `contains`: the spec
property holds of the intended semantics, which the source never reaches. -/
lemma unionSpec_contains_both (a b : BoundingBox) :
    (a.unionSpec b).containsSpec a = true ∧ (a.unionSpec b).containsSpec b = true := by
  simp only [BoundingBox.containsSpec, BoundingBox.unionSpec, Bool.and_eq_true,
    decide_eq_true_eq]
  omega

/-- C1: the claim says a page of at least 30 lines goes through one pass of
page processing with no escaping exception.  On the concrete 30-line page
`page30`, however, `postprocess` (via `findcolumns`) raises `NameError`
because the module constant `COLMARGIN` (oedabby.py:329/336) is never
defined, so the exception escapes the page's processing. -/
theorem postprocess_page30_raises_nameerror :
    page30.lines.length = 30 ∧
    postprocess page30 = .error ("NameError: global name COLMARGIN is not defined") :=
  ⟨rfl, rfl⟩

/-- C2: the claim says `union(a, b)` returns a box containing both `a` and
`b`.  In the source, `union` calls the one-argument constructor with four
arguments and raises `TypeError` on every call, and `contains` reads names
that are not in scope and raises `NameError` on every call, so neither ever
returns; evaluated here at a concrete pair of valid boxes. -/
theorem union_and_contains_always_raise :
    BoundingBox.union ⟨0, 0, 4, 4⟩ ⟨2, 2, 6, 6⟩ =
      .error ("TypeError: __init__() takes exactly 2 arguments (5 given)") ∧
    BoundingBox.contains ⟨0, 0, 6, 6⟩ ⟨2, 2, 4, 4⟩ =
      .error ("NameError: global name left is not defined") :=
  ⟨rfl, rfl⟩

/-- C3: the claim says `intersects` is true iff the boxes share any point or
edge, touching included.  The boxes `(0,0,10,10)` and `(10,0,20,10)` share
the whole edge `x = 10`, yet `intersects` returns `false` (the source
compares with `>=`, so touching does not count), refuting the claim. -/
theorem intersects_false_on_touching_boxes :
    BoundingBox.sharesPointOrEdge ⟨0, 0, 10, 10⟩ ⟨10, 0, 20, 10⟩ ∧
    BoundingBox.intersects ⟨0, 0, 10, 10⟩ ⟨10, 0, 20, 10⟩ = false :=
  ⟨⟨10, 5, by decide⟩, rfl⟩

/-- C4: over an ascending 3-element boundary list, replacing a box's `left`
by a strictly larger value (all other fields and the boundaries fixed) never
decreases the column index returned by `column`. -/
theorem column_monotone_in_left (b : BoundingBox) (l2 c0 c1 c2 : Int)
    (_h01 : c0 ≤ c1) (_h12 : c1 ≤ c2) (h : b.left < l2) :
    b.column c0 [c1, c2] ≤ BoundingBox.column { b with left := l2 } c0 [c1, c2] := by
  rw [column_unfold, column_unfold]
  dsimp only
  split_ifs <;> omega

/-- Witness for C4 at a concrete box: moving `left` from 0 to 800 moves the
column index from 0 to 1. -/
theorem column_monotone_in_left_witness :
    ((100 : Int) ≤ 700 ∧ (700 : Int) ≤ 1400 ∧ (0 : Int) < 800) ∧
    BoundingBox.column ⟨0, 0, 500, 10⟩ 100 [700, 1400] ≤
      BoundingBox.column ⟨800, 0, 500, 10⟩ 100 [700, 1400] :=
  ⟨by decide,
   column_monotone_in_left ⟨0, 0, 500, 10⟩ 800 100 700 1400
     (by decide) (by decide) (by decide)⟩

/-- C5 counterexample for the diagnostic part: on the concrete 10-line page
`page10`, the pipeline returns the input tree unchanged with an EMPTY
diagnostic list — there is no skipped-page diagnostic of any kind, contrary
to the claim (`findcolumns` returns before any print, and `postprocess`
prints nothing on the falsy branch). -/
theorem postprocess_skips_silently_cex :
    page10.lines.length = 10 ∧ postprocess page10 = .ok (page10, []) :=
  ⟨rfl, rfl⟩

/-- C5 as amended: on every page with fewer than 30 lines, `findcolumns`
returns the undetermined result (no boundaries) and `postprocess` returns
the input tree unchanged, skipping layout correction — and emits no
diagnostic at all. -/
theorem postprocess_pass_through_under_30_lines (dom : Page)
    (h : dom.lines.length < 30) :
    findcolumns dom = .ok (none, []) ∧ postprocess dom = .ok (dom, []) := by
  have h1 : findcolumns dom = .ok (none, []) := by
    unfold findcolumns
    rw [if_pos h]
  refine ⟨h1, ?_⟩
  unfold postprocess
  rw [h1]
  rfl

/-- Witness for C5 (amended) at the concrete page `page10`. -/
theorem postprocess_pass_through_under_30_lines_witness :
    page10.lines.length < 30 ∧
    (findcolumns page10 = .ok (none, []) ∧ postprocess page10 = .ok (page10, [])) :=
  ⟨by decide, postprocess_pass_through_under_30_lines page10 (by decide)⟩

/-- C6: on a page with fewer than 4 blocks, `mergeblocks` returns at once
with the tree unmodified and no output, and running it again on the result
gives the same tree (idempotence). -/
theorem mergeblocks_noop_under_4_blocks (dom : Page) (columns : Columns)
    (h : dom.blocks.length < 4) :
    mergeblocks dom columns = .ok (dom, []) ∧
    ∀ dom2 log2, mergeblocks dom columns = .ok (dom2, log2) →
      mergeblocks dom2 columns = .ok (dom2, log2) := by
  have h1 : mergeblocks dom columns = .ok (dom, []) := by
    unfold mergeblocks
    rw [if_pos (by omega)]
  refine ⟨h1, ?_⟩
  intro dom2 log2 h2
  rw [h1] at h2
  injection h2 with h3
  cases h3
  exact h1

/-- Witness for C6 at the concrete 3-block page `page3`. -/
theorem mergeblocks_noop_under_4_blocks_witness :
    page3.blocks.length < 4 ∧ mergeblocks page3 cols3 = .ok (page3, []) :=
  ⟨by decide, (mergeblocks_noop_under_4_blocks page3 cols3 (by decide)).1⟩

end Oed

namespace Oed

lemma bind_ok_elim {α β : Type} {x : Except String α} {f : α → Except String β}
    {t : β} (h : x >>= f = .ok t) : ∃ a, x = .ok a ∧ f a = .ok t := by
  cases x with
  | error e => simp [Bind.bind, Except.bind] at h
  | ok a => exact ⟨a, rfl, h⟩

lemma column_cases (b : BoundingBox) (c0 c1 c2 : Int) :
    b.column c0 [c1, c2] = -1 ∨ b.column c0 [c1, c2] = 0 ∨
    b.column c0 [c1, c2] = 1 ∨ b.column c0 [c1, c2] = 2 := by
  rw [column_unfold]
  split_ifs <;> simp

lemma classifyStep_elim (columns : Columns) (s : CState) (block : Block) (u : CState)
    (h : classifyStep columns s block = .ok u) :
    u.bboxes = s.bboxes ++ [block.bbox] ∧
    ((block.bbox.column columns.col1 [columns.col2, columns.col3] < 0 ∧
      u.removedLog = s.removedLog ++ ["Removed  " ++ block.bbox.pyrepr] ∧
      u.cols = s.cols) ∨
     (¬ block.bbox.column columns.col1 [columns.col2, columns.col3] < 0 ∧
      u.removedLog = s.removedLog ∧
      appendAt s.cols
        (block.bbox.column columns.col1 [columns.col2, columns.col3]).toNat block
        = some u.cols)) := by
  simp only [classifyStep] at h
  split at h
  · injection h with h2
    subst h2
    refine ⟨rfl, Or.inl ⟨by assumption, rfl, rfl⟩⟩
  · split at h
    · injection h with h2
      subst h2
      refine ⟨rfl, Or.inr ⟨by assumption, rfl, by assumption⟩⟩
    · simp at h

end Oed

namespace Oed

lemma classify_fold_bboxes (columns : Columns) :
    ∀ (blocks : List Block) (s t : CState),
      blocks.foldlM (classifyStep columns) s = .ok t →
      t.bboxes = s.bboxes ++ blocks.map (fun b => b.bbox) := by
  intro blocks
  induction blocks with
  | nil =>
      intro s t h
      simp only [List.foldlM_nil] at h
      injection h with h2
      subst h2
      simp
  | cons b bs ih =>
      intro s t h
      rw [List.foldlM_cons] at h
      obtain ⟨u, hu, hrest⟩ := bind_ok_elim h
      obtain ⟨hb, _⟩ := classifyStep_elim columns s b u hu
      rw [ih u t hrest, hb]
      simp

lemma classify_fold_removed_mono (columns : Columns) :
    ∀ (blocks : List Block) (s t : CState),
      blocks.foldlM (classifyStep columns) s = .ok t →
      ∀ x ∈ s.removedLog, x ∈ t.removedLog := by
  intro blocks
  induction blocks with
  | nil =>
      intro s t h
      simp only [List.foldlM_nil] at h
      injection h with h2
      subst h2
      exact fun x hx => hx
  | cons b bs ih =>
      intro s t h x hx
      rw [List.foldlM_cons] at h
      obtain ⟨u, hu, hrest⟩ := bind_ok_elim h
      obtain ⟨_, hcase⟩ := classifyStep_elim columns s b u hu
      apply ih u t hrest
      rcases hcase with ⟨_, hr, _⟩ | ⟨_, hr, _⟩
      · rw [hr]; exact List.mem_append_left _ hx
      · rw [hr]; exact hx

lemma classify_fold_removed (columns : Columns) :
    ∀ (blocks : List Block) (s t : CState) (b : Block),
      blocks.foldlM (classifyStep columns) s = .ok t →
      b ∈ blocks →
      b.bbox.column columns.col1 [columns.col2, columns.col3] < 0 →
      ("Removed  " ++ b.bbox.pyrepr) ∈ t.removedLog := by
  intro blocks
  induction blocks with
  | nil => intro s t b _ hmem; exact absurd hmem (List.not_mem_nil b)
  | cons b0 bs ih =>
      intro s t b h hmem hneg
      rw [List.foldlM_cons] at h
      obtain ⟨u, hu, hrest⟩ := bind_ok_elim h
      rcases List.mem_cons.mp hmem with rfl | hmem2
      · obtain ⟨_, hcase⟩ := classifyStep_elim columns s b u hu
        rcases hcase with ⟨_, hr, _⟩ | ⟨hpos, _, _⟩
        · apply classify_fold_removed_mono columns bs u t hrest
          rw [hr]
          exact List.mem_append_right _ (List.mem_singleton_self _)
        · exact absurd hneg hpos
      · exact ih u t b hrest hmem2 hneg

lemma appendAt_mem :
    ∀ (gs : List (List Block)) (i : Nat) (b : Block) (gs2 : List (List Block)),
      appendAt gs i b = some gs2 →
      ∀ g ∈ gs2, ∀ x ∈ g, (∃ g0 ∈ gs, x ∈ g0) ∨ x = b := by
  intro gs
  induction gs with
  | nil => intro i b gs2 h; exact Option.noConfusion h
  | cons g0 gs ih =>
      intro i b gs2 h g hg x hx
      cases i with
      | zero =>
          simp only [appendAt] at h
          injection h with h2
          subst h2
          rcases List.mem_cons.mp hg with rfl | hgs
          · rcases List.mem_append.mp hx with hx0 | hxb
            · exact Or.inl ⟨g0, List.mem_cons_self _ _, hx0⟩
            · exact Or.inr (List.mem_singleton.mp hxb)
          · exact Or.inl ⟨g, List.mem_cons_of_mem _ hgs, hx⟩
      | succ i =>
          simp only [appendAt] at h
          cases h2 : appendAt gs i b with
          | none => rw [h2] at h; simp at h
          | some gs2' =>
              rw [h2] at h
              simp only [Option.map_some'] at h
              injection h with h3
              subst h3
              rcases List.mem_cons.mp hg with rfl | hgs
              · exact Or.inl ⟨g, List.mem_cons_self _ _, hx⟩
              · rcases ih i b gs2' h2 g hgs x hx with ⟨g0, hg0, hxg0⟩ | hxb
                · exact Or.inl ⟨g0, List.mem_cons_of_mem _ hg0, hxg0⟩
                · exact Or.inr hxb

lemma classify_fold_groups (columns : Columns) (P : Block → Prop) :
    ∀ (blocks : List Block) (s t : CState),
      blocks.foldlM (classifyStep columns) s = .ok t →
      (∀ g ∈ s.cols, ∀ x ∈ g, P x) →
      (∀ b ∈ blocks,
        ¬ b.bbox.column columns.col1 [columns.col2, columns.col3] < 0 → P b) →
      ∀ g ∈ t.cols, ∀ x ∈ g, P x := by
  intro blocks
  induction blocks with
  | nil =>
      intro s t h hs _
      simp only [List.foldlM_nil] at h
      injection h with h2
      subst h2
      exact hs
  | cons b bs ih =>
      intro s t h hs hblocks
      rw [List.foldlM_cons] at h
      obtain ⟨u, hu, hrest⟩ := bind_ok_elim h
      obtain ⟨_, hcase⟩ := classifyStep_elim columns s b u hu
      apply ih u t hrest
      · rcases hcase with ⟨_, _, hc⟩ | ⟨hpos, _, happ⟩
        · rw [hc]; exact hs
        · intro g hg x hx
          rcases appendAt_mem s.cols _ b u.cols happ g hg x hx with ⟨g0, hg0, hxg0⟩ | rfl
          · exact hs g0 hg0 x hxg0
          · exact hblocks x (List.mem_cons_self _ _) hpos
      · exact fun b2 hb2 => hblocks b2 (List.mem_cons_of_mem _ hb2)

end Oed

namespace Oed

lemma appendAt_some_of_lt :
    ∀ (gs : List (List Block)) (i : Nat) (b : Block), i < gs.length →
      ∃ gs2, appendAt gs i b = some gs2 ∧ gs2.length = gs.length ∧
        (gs2.map List.length).sum = (gs.map List.length).sum + 1 := by
  intro gs
  induction gs with
  | nil => intro i b h; exact absurd h (by simp)
  | cons g0 gs ih =>
      intro i b h
      cases i with
      | zero =>
          refine ⟨(g0 ++ [b]) :: gs, rfl, by simp, ?_⟩
          simp [List.length_append]
          omega
      | succ i =>
          obtain ⟨gs2', h1, h2, h3⟩ := ih i b (by simpa using h)
          refine ⟨g0 :: gs2', ?_, by simp [h2], ?_⟩
          · simp only [appendAt, h1, Option.map_some']
          · simp only [List.map_cons, List.sum_cons, h3]
            omega

lemma classifyStep_total (columns : Columns) (s : CState) (block : Block)
    (h3 : s.cols.length = 3) :
    ∃ u, classifyStep columns s block = .ok u ∧ u.cols.length = 3 ∧
      groupsize u + u.removedLog.length
        = groupsize s + s.removedLog.length + 1 := by
  rcases column_cases block.bbox columns.col1 columns.col2 columns.col3 with hc | hc | hc | hc
  · refine ⟨({ s with
              bboxes := s.bboxes ++ [block.bbox]
              page_bb := s.page_bb.maximize block.bbox
              removedLog := s.removedLog ++ ["Removed  " ++ block.bbox.pyrepr] }),
            ?_, by simpa using h3, ?_⟩
    · simp only [classifyStep, hc]
      norm_num
    · show (s.cols.map List.length).sum
          + (s.removedLog ++ ["Removed  " ++ block.bbox.pyrepr]).length
        = (s.cols.map List.length).sum + s.removedLog.length + 1
      simp only [List.length_append, List.length_cons, List.length_nil]
      omega
  all_goals {
    have hnn : ¬ block.bbox.column columns.col1 [columns.col2, columns.col3] < 0 := by
      rw [hc]
      norm_num
    have hlt : (block.bbox.column columns.col1 [columns.col2, columns.col3]).toNat
        < s.cols.length := by rw [hc, h3]; norm_num
    obtain ⟨gs2, h1, h2, hsum⟩ :=
      appendAt_some_of_lt s.cols
        (block.bbox.column columns.col1 [columns.col2, columns.col3]).toNat block hlt
    refine ⟨({ s with
              bboxes := s.bboxes ++ [block.bbox]
              page_bb := s.page_bb.maximize block.bbox
              cols := gs2 }), ?_, ?_, ?_⟩
    · simp only [classifyStep]
      rw [if_neg hnn, h1]
    · show gs2.length = 3
      rw [h2]
      exact h3
    · show (gs2.map List.length).sum + s.removedLog.length
        = (s.cols.map List.length).sum + s.removedLog.length + 1
      omega
  }

lemma classify_fold_total (columns : Columns) :
    ∀ (blocks : List Block) (s : CState), s.cols.length = 3 →
      ∃ t, blocks.foldlM (classifyStep columns) s = .ok t ∧ t.cols.length = 3 ∧
        groupsize t + t.removedLog.length
          = groupsize s + s.removedLog.length + blocks.length := by
  intro blocks
  induction blocks with
  | nil =>
      intro s h3
      exact ⟨s, rfl, h3, by simp⟩
  | cons b bs ih =>
      intro s h3
      obtain ⟨u, hu, hu3, husum⟩ := classifyStep_total columns s b h3
      obtain ⟨t, ht, ht3, htsum⟩ := ih u hu3
      refine ⟨t, ?_, ht3, ?_⟩
      · rw [List.foldlM_cons, hu]
        exact ht
      · simp only [List.length_cons]
        omega

end Oed

namespace Oed

lemma mergewalk_pres (c : Int) :
    ∀ (l acc : List Block) (lc : Int) (cur : Option Block) (out : List Block),
      mergewalk acc lc cur l = .ok out →
      (∀ x ∈ acc, c ≤ x.bbox.right) →
      (∀ x ∈ cur.toList, c ≤ x.bbox.right) →
      (∀ x ∈ l, c ≤ x.bbox.right) →
      ∀ x ∈ out, c ≤ x.bbox.right := by
  intro l
  induction l with
  | nil =>
      intro acc lc cur out h hacc hcur _
      simp only [mergewalk] at h
      injection h with h2
      subst h2
      intro x hx
      rcases List.mem_append.mp hx with hx1 | hx2
      · exact hacc x hx1
      · exact hcur x hx2
  | cons b bs ih =>
      intro acc lc cur out h hacc hcur hl
      simp only [mergewalk] at h
      split at h
      · cases cur with
        | none => simp at h
        | some cc =>
            apply ih acc lc (some (extendblock cc b)) out h hacc ?_
              (fun x hx => hl x (List.mem_cons_of_mem _ hx))
            intro x hx
            rcases List.mem_singleton.mp hx with rfl
            have h1 : c ≤ cc.bbox.right := hcur cc (List.mem_singleton_self _)
            have h2 : (extendblock cc b).bbox.right
                = max cc.bbox.right b.bbox.right := rfl
            rw [h2]
            exact le_trans h1 (le_max_left _ _)
      · apply ih (acc ++ cur.toList) b.bbox.centerx (some b) out h ?_ ?_
          (fun x hx => hl x (List.mem_cons_of_mem _ hx))
        · intro x hx
          rcases List.mem_append.mp hx with hx1 | hx2
          · exact hacc x hx1
          · exact hcur x hx2
        · intro x hx
          rcases List.mem_singleton.mp hx with rfl
          exact hl x (List.mem_cons_self _ _)

lemma mergecolumn_pres (c : Int) (col out : List Block)
    (h : mergecolumn col = .ok out)
    (hcol : ∀ x ∈ col, c ≤ x.bbox.right) :
    ∀ x ∈ out, c ≤ x.bbox.right := by
  unfold mergecolumn at h
  split at h
  · injection h with h2
    subst h2
    exact hcol
  · apply mergewalk_pres c (sortByTop col) [] (-2000) none out h
      (by intro x hx; exact absurd hx (List.not_mem_nil x))
      (by intro x hx; exact absurd hx (List.not_mem_nil x))
    intro x hx
    apply hcol
    exact (List.Perm.mem_iff (List.perm_insertionSort _ col)).mp hx

lemma mergecols_pres (c : Int) :
    ∀ (gs : List (List Block)) (out : List Block),
      mergecols gs = .ok out →
      (∀ g ∈ gs, ∀ x ∈ g, c ≤ x.bbox.right) →
      ∀ x ∈ out, c ≤ x.bbox.right := by
  intro gs
  induction gs with
  | nil =>
      intro out h _
      injection h with h2
      subst h2
      intro x hx
      exact absurd hx (List.not_mem_nil x)
  | cons g gs ih =>
      intro out h hgs
      simp only [mergecols] at h
      obtain ⟨m, hm, h2⟩ := bind_ok_elim h
      obtain ⟨rest, hrest, h3⟩ := bind_ok_elim h2
      injection h3 with h4
      subst h4
      intro x hx
      rcases List.mem_append.mp hx with hx1 | hx2
      · exact mergecolumn_pres c g m hm (hgs g (List.mem_cons_self _ _)) x hx1
      · exact ih rest hrest (fun g2 hg2 => hgs g2 (List.mem_cons_of_mem _ hg2)) x hx2

lemma mergeblocks_elim (dom : Page) (columns : Columns) (dom2 : Page)
    (log : List String)
    (hlen : ¬ dom.blocks.length ≤ 3)
    (h : mergeblocks dom columns = .ok (dom2, log)) :
    ∃ t : CState,
      dom.blocks.foldlM (classifyStep columns) initCState = .ok t ∧
      mergecols t.cols = .ok dom2.blocks ∧
      log = t.removedLog ++ ["Page: " ++ t.page_bb.pyrepr]
        ++ (if dom2.blocks.length ≠ 3 then
              ("  * wrong # blocks on this page: " ++ toString dom2.blocks.length)
                :: t.bboxes.map BoundingBox.pystr
            else []) := by
  unfold mergeblocks at h
  rw [if_neg hlen] at h
  obtain ⟨t, ht, h2⟩ := bind_ok_elim h
  obtain ⟨final, hf, h3⟩ := bind_ok_elim h2
  injection h3 with h4
  have h5 : ({ blocks := final } : Page) = dom2 := congrArg Prod.fst h4
  have h6 : final = dom2.blocks := by rw [← h5]
  subst h6
  refine ⟨t, ht, hf, ?_⟩
  have h7 := congrArg Prod.snd h4
  simp only at h7
  exact h7.symm

end Oed

namespace Oed

lemma mergewalk_step_new (acc : List Block) (lc : Int) (cur : Option Block)
    (b : Block) (bs : List Block)
    (h : ¬ (lc - b.bbox.centerx).natAbs < 450) :
    mergewalk acc lc cur (b :: bs)
      = mergewalk (acc ++ cur.toList) b.bbox.centerx (some b) bs := by
  simp only [mergewalk]
  rw [if_neg h]

lemma mergewalk_step_merge (acc : List Block) (lc : Int) (cc : Block)
    (b : Block) (bs : List Block)
    (h : (lc - b.bbox.centerx).natAbs < 450) :
    mergewalk acc lc (some cc) (b :: bs)
      = mergewalk acc lc (some (extendblock cc b)) bs := by
  simp only [mergewalk]
  rw [if_pos h]

/-- C7: a block whose right edge lies strictly left of the first column
boundary is classified `-1` by `column`; when `mergeblocks` runs its main
path (more than 3 blocks) and completes, that block is absent from the
surviving tree (it is detached, and no merge result can coincide with it,
every survivor having its right edge at or beyond the first boundary) and
its removal is recorded in the diagnostic output. -/
theorem margin_block_removed_and_logged (dom : Page) (columns : Columns)
    (b : Block) (dom2 : Page) (log : List String)
    (hmem : b ∈ dom.blocks) (hright : b.bbox.right < columns.col1)
    (hlen : 3 < dom.blocks.length)
    (hok : mergeblocks dom columns = .ok (dom2, log)) :
    b.bbox.column columns.col1 [columns.col2, columns.col3] = -1 ∧
    b ∉ dom2.blocks ∧ ("Removed  " ++ b.bbox.pyrepr) ∈ log := by
  have hcol : b.bbox.column columns.col1 [columns.col2, columns.col3] = -1 := by
    rw [column_unfold, if_pos hright]
  obtain ⟨t, ht, hmc, hlog⟩ := mergeblocks_elim dom columns dom2 log (by omega) hok
  refine ⟨hcol, ?_, ?_⟩
  · have hsur : ∀ x ∈ dom2.blocks, columns.col1 ≤ x.bbox.right := by
      apply mergecols_pres columns.col1 t.cols dom2.blocks hmc
      apply classify_fold_groups columns (fun x => columns.col1 ≤ x.bbox.right)
        dom.blocks initCState t ht
      · intro g hg x hx
        simp only [initCState, List.mem_cons, List.not_mem_nil, or_false] at hg
        rcases hg with rfl | rfl | rfl <;> exact absurd hx (List.not_mem_nil x)
      · intro b2 _ hneg
        by_contra hlt
        apply hneg
        rw [column_unfold, if_pos (by omega)]
        norm_num
    intro hmem2
    have h1 := hsur b hmem2
    omega
  · have h1 : ("Removed  " ++ b.bbox.pyrepr) ∈ t.removedLog :=
      classify_fold_removed columns dom.blocks initCState t b ht hmem
        (by rw [hcol]; norm_num)
    rw [hlog]
    exact List.mem_append_left _ (List.mem_append_left _ h1)

/-- Witness for C7: on the 4-block page `page4`, the margin block is
classified `-1`, vanishes from the surviving tree `page3`, and its removal
line appears in the output `log4`. -/
theorem margin_block_removed_and_logged_witness :
    (marginBlock ∈ page4.blocks ∧ marginBlock.bbox.right < cols3.col1 ∧
     3 < page4.blocks.length) ∧
    (marginBlock.bbox.column cols3.col1 [cols3.col2, cols3.col3] = -1 ∧
     marginBlock ∉ page3.blocks ∧
     ("Removed  " ++ marginBlock.bbox.pyrepr) ∈ log4) :=
  ⟨⟨by decide, by decide, by decide⟩,
   margin_block_removed_and_logged page4 cols3 marginBlock page3 log4
     (by decide) (by decide) (by decide) rfl⟩

/-- C8: three same-column, vertically stacked (tops ascending), horizontally
aligned blocks (pairwise centers within the 450px proximity threshold; the
first center on the page, i.e. nonnegative) are collapsed by the column walk
into the single block `extendblock (extendblock b1 b2) b3`, whose box is the
coordinate-wise union of the three boxes — an expression symmetric in the
three inputs, hence independent of which adjacent pair is merged first — and
whose line count is the sum of the three line counts. -/
theorem merge_three_aligned_equals_union (b1 b2 b3 : Block)
    (ht12 : b1.bbox.top ≤ b2.bbox.top) (ht23 : b2.bbox.top ≤ b3.bbox.top)
    (hpage : 0 ≤ b1.bbox.centerx)
    (h12 : (b1.bbox.centerx - b2.bbox.centerx).natAbs < 450)
    (h13 : (b1.bbox.centerx - b3.bbox.centerx).natAbs < 450)
    (h23 : (b2.bbox.centerx - b3.bbox.centerx).natAbs < 450) :
    mergecolumn [b1, b2, b3] = .ok [extendblock (extendblock b1 b2) b3] ∧
    (extendblock (extendblock b1 b2) b3).bbox.left
      = min (min b1.bbox.left b2.bbox.left) b3.bbox.left ∧
    (extendblock (extendblock b1 b2) b3).bbox.top
      = min (min b1.bbox.top b2.bbox.top) b3.bbox.top ∧
    (extendblock (extendblock b1 b2) b3).bbox.right
      = max (max b1.bbox.right b2.bbox.right) b3.bbox.right ∧
    (extendblock (extendblock b1 b2) b3).bbox.bottom
      = max (max b1.bbox.bottom b2.bbox.bottom) b3.bbox.bottom ∧
    (extendblock (extendblock b1 b2) b3).lineCount
      = b1.lineCount + b2.lineCount + b3.lineCount := by
  have hsort : sortByTop [b1, b2, b3] = [b1, b2, b3] := by
    unfold sortByTop
    apply List.Sorted.insertionSort_eq
    rw [List.sorted_cons, List.sorted_cons, List.sorted_cons]
    refine ⟨?_, ?_, ?_, List.sorted_nil⟩
    · intro x hx
      rcases List.mem_cons.mp hx with rfl | hx2
      · exact ht12
      · rcases List.mem_cons.mp hx2 with rfl | hx3
        · exact le_trans ht12 ht23
        · exact absurd hx3 (List.not_mem_nil x)
    · intro x hx
      rcases List.mem_cons.mp hx with rfl | hx2
      · exact ht23
      · exact absurd hx2 (List.not_mem_nil x)
    · intro x hx
      exact absurd hx (List.not_mem_nil x)
  have hfar : ¬ ((-2000 : Int) - b1.bbox.centerx).natAbs < 450 := by omega
  refine ⟨?_, rfl, rfl, rfl, rfl, ?_⟩
  · unfold mergecolumn
    rw [if_neg (by simp), hsort,
        mergewalk_step_new [] (-2000) none b1 [b2, b3] hfar,
        mergewalk_step_merge _ _ _ _ _ h12,
        mergewalk_step_merge _ _ _ _ _ h13]
    rfl
  · simp only [Block.lineCount, extendblock, List.map_append, List.sum_append]

/-- Witness for C8 at the concrete stacked blocks `blkA`, `blkB`, `blkC`
(centers all equal, line counts 2, 1 and 3). -/
theorem merge_three_aligned_equals_union_witness :
    (blkA.bbox.top ≤ blkB.bbox.top ∧ blkB.bbox.top ≤ blkC.bbox.top ∧
     (0 : Int) ≤ blkA.bbox.centerx ∧
     (blkA.bbox.centerx - blkB.bbox.centerx).natAbs < 450 ∧
     (blkA.bbox.centerx - blkC.bbox.centerx).natAbs < 450 ∧
     (blkB.bbox.centerx - blkC.bbox.centerx).natAbs < 450) ∧
    mergecolumn [blkA, blkB, blkC] = .ok [extendblock (extendblock blkA blkB) blkC] ∧
    (extendblock (extendblock blkA blkB) blkC).lineCount
      = blkA.lineCount + blkB.lineCount + blkC.lineCount :=
  ⟨⟨by decide, by decide, by decide, by decide, by decide, by decide⟩,
   (merge_three_aligned_equals_union blkA blkB blkC (by decide) (by decide)
      (by decide) (by decide) (by decide) (by decide)).1,
   (merge_three_aligned_equals_union blkA blkB blkC (by decide) (by decide)
      (by decide) (by decide) (by decide) (by decide)).2.2.2.2.2⟩

/-- C9 counterexample: on the 4-block page `page9` the merge pass leaves ONE
region, so the post-merge count differs from 3 and the mismatch is reported —
but the box list printed with it is the list of the four ORIGINAL boxes, and
the surviving region's own box (`bbox 100 0 500 350`) appears nowhere in the
diagnostic output, contrary to the claim that every surviving region's
bounding box is reported. -/
theorem mismatch_report_cex :
    mergeblocks page9 cols3 = .ok (⟨[merged9]⟩, log9) ∧
    merged9.bbox.pystr = "bbox 100 0 500 350" ∧
    ([merged9] : List Block).length ≠ 3 ∧
    "bbox 100 0 500 350" ∉ log9 :=
  ⟨rfl, rfl, by decide, by decide⟩

/-- C9 as amended: when `mergeblocks` runs its main path (more than 3
blocks) and completes with a post-merge region count different from 3, the
mismatch line is in the diagnostic output together with the pre-merge
bounding box of every ORIGINAL region (not of the survivors), and the
anomaly is non-fatal: the call still returns normally. -/
theorem mismatch_report_amended (dom : Page) (columns : Columns) (dom2 : Page)
    (log : List String)
    (hlen : 3 < dom.blocks.length)
    (hok : mergeblocks dom columns = .ok (dom2, log))
    (hne : dom2.blocks.length ≠ 3) :
    ("  * wrong # blocks on this page: " ++ toString dom2.blocks.length) ∈ log ∧
    ∀ b ∈ dom.blocks, b.bbox.pystr ∈ log := by
  obtain ⟨t, ht, _, hlog⟩ := mergeblocks_elim dom columns dom2 log (by omega) hok
  have hb : t.bboxes = dom.blocks.map (fun b => b.bbox) := by
    have h1 := classify_fold_bboxes columns dom.blocks initCState t ht
    simpa [initCState] using h1
  rw [hlog, if_pos hne]
  constructor
  · exact List.mem_append_right _ (List.mem_cons_self _ _)
  · intro b hbm
    apply List.mem_append_right
    apply List.mem_cons_of_mem
    rw [hb, List.map_map]
    exact List.mem_map_of_mem _ hbm

/-- Witness for C9 (amended) on the concrete page `page9`. -/
theorem mismatch_report_amended_witness :
    (3 < page9.blocks.length ∧
     mergeblocks page9 cols3 = .ok (⟨[merged9]⟩, log9) ∧
     (Page.mk [merged9]).blocks.length ≠ 3) ∧
    ("  * wrong # blocks on this page: "
        ++ toString (Page.mk [merged9]).blocks.length) ∈ log9 ∧
    ∀ b ∈ page9.blocks, b.bbox.pystr ∈ log9 :=
  ⟨⟨by decide, rfl, by decide⟩,
   mismatch_report_amended page9 cols3 ⟨[merged9]⟩ log9 (by decide) rfl (by decide)⟩

/-- C10: `column` over a 3-element boundary list only returns
-1, 0, 1 or 2; consequently the classification loop of `mergeblocks` is
total — it never hits the out-of-range branch of `cols[col]` — and every
block goes either to the removed log or to exactly one of the three column
groups: group sizes plus removals add up to the number of blocks. -/
theorem column_range_and_grouping_total :
    (∀ (b : BoundingBox) (c0 c1 c2 : Int),
        b.column c0 [c1, c2] = -1 ∨ b.column c0 [c1, c2] = 0 ∨
        b.column c0 [c1, c2] = 1 ∨ b.column c0 [c1, c2] = 2) ∧
    (∀ (columns : Columns) (blocks : List Block),
        ∃ t : CState,
          blocks.foldlM (classifyStep columns) initCState = .ok t ∧
          t.cols.length = 3 ∧
          groupsize t + t.removedLog.length = blocks.length) := by
  constructor
  · exact fun b c0 c1 c2 => column_cases b c0 c1 c2
  · intro columns blocks
    obtain ⟨t, h1, h2, h3⟩ := classify_fold_total columns blocks initCState rfl
    refine ⟨t, h1, h2, ?_⟩
    simpa [groupsize, initCState] using h3

end Oed
